import Mathlib

/-
Verification development for the gen-images batch pipeline
(source: src/index.ts).  The TypeScript source is shallowly embedded:
pure helpers become Lean functions, the two external services (ChatGPT
prompt generation, Gemini image generation) become oracle functions in
an environment record, and the filesystem and console side effects are
reflected as an explicit event trace.  Strings are modelled by Lean
strings (lists of Unicode scalar chars, matching JS strings for the
inputs at hand); `toLowerCase` is modelled by ASCII lower-casing, which
agrees with JS on every character position where the pipeline applies
it after its ASCII-only sanitisation step.
-/

namespace GenImages

/-! ## NameSanitizer (src/index.ts, `formatFileName`, lines 44-55)

The JS implementation chains eight `String.replace` calls and a
`toLowerCase`.  Each regex replacement is embedded as a list transducer
over the string's characters.  -/

/-- Character class `\s` of ECMAScript regexps (WhiteSpace + LineTerminator). -/
def isJsWhitespace (c : Char) : Bool :=
  decide ((9 ≤ c.toNat ∧ c.toNat ≤ 13) ∨ c.toNat = 32 ∨ c.toNat = 0xa0 ∨
    c.toNat = 0x1680 ∨ (0x2000 ≤ c.toNat ∧ c.toNat ≤ 0x200a) ∨ c.toNat = 0x2028 ∨
    c.toNat = 0x2029 ∨ c.toNat = 0x202f ∨ c.toNat = 0x205f ∨ c.toNat = 0x3000 ∨
    c.toNat = 0xfeff)

/-- Character class `\w` of ECMAScript regexps: `[A-Za-z0-9_]`. -/
def isWordChar (c : Char) : Bool :=
  decide ((65 ≤ c.toNat ∧ c.toNat ≤ 90) ∨ (97 ≤ c.toNat ∧ c.toNat ≤ 122) ∨
    (48 ≤ c.toNat ∧ c.toNat ≤ 57) ∨ c.toNat = 95)

/-- `.replace(/\s+/g, "-")`: every maximal run of whitespace becomes one
hyphen.  The boolean argument records whether the previous character was
part of a whitespace run. -/
def replaceWsRuns : Bool → List Char → List Char
  | _, [] => []
  | inRun, c :: cs =>
    if isJsWhitespace c then
      (if inRun then [] else ['-']) ++ replaceWsRuns true cs
    else c :: replaceWsRuns false cs

/-- The `.replace` with regex `-+` (global): collapse hyphen runs to a
single hyphen. -/
def collapseHyphens : Bool → List Char → List Char
  | _, [] => []
  | inRun, c :: cs =>
    if c = '-' then
      (if inRun then [] else ['-']) ++ collapseHyphens true cs
    else c :: collapseHyphens false cs

/-- First half of `.replace(/^-|-$/g, "")`: the `^-` alternative removes a
single leading hyphen. -/
def dropLeadingHyphen (l : List Char) : List Char :=
  if l.head? = some '-' then l.tail else l

/-- Second half of `.replace(/^-|-$/g, "")`: the `-$` alternative removes a
single trailing hyphen (from what is left after the `^-` match). -/
def dropTrailingHyphen (l : List Char) : List Char :=
  if l.getLast? = some '-' then l.dropLast else l

/-- `formatFileName` on the character list (src/index.ts lines 44-55):
whitespace runs to `-`; `/`, `&`, `(`, `)` to `-`; any non-`[\w-]` char to
`-`; collapse `-` runs; strip one leading and one trailing `-`; lower-case. -/
def formatFileNameL (l : List Char) : List Char :=
  let s1 := replaceWsRuns false l
  let s2 := s1.map (fun c => if c = '/' then '-' else c)
  let s3 := s2.map (fun c => if c = '&' then '-' else c)
  let s4 := s3.map (fun c => if c = '(' then '-' else c)
  let s5 := s4.map (fun c => if c = ')' then '-' else c)
  let s6 := s5.map (fun c => if isWordChar c || c == '-' then c else '-')
  let s7 := collapseHyphens false s6
  let s8 := dropTrailingHyphen (dropLeadingHyphen s7)
  s8.map Char.toLower

/-- `formatFileName` (src/index.ts lines 44-55). -/
def formatFileName (name : String) : String :=
  ⟨formatFileNameL name.data⟩

/-- Characters allowed in sanitised output: lowercase ASCII letters,
digits, underscore (code 95) and hyphen (code 45). -/
def isGoodChar (c : Char) : Bool :=
  decide ((97 ≤ c.toNat ∧ c.toNat ≤ 122) ∨ (48 ≤ c.toNat ∧ c.toNat ≤ 57) ∨
    c.toNat = 95 ∨ c.toNat = 45)

/-- No two consecutive hyphens occur, under the assumption that the
character just before the list was a hyphen iff `prev`. -/
def noDoubleFrom (prev : Bool) : List Char → Bool
  | [] => true
  | c :: cs => !(prev && c == '-') && noDoubleFrom (c == '-') cs

/-- Shape of sanitised names: only good characters, no doubled hyphen,
no leading hyphen, no trailing hyphen. -/
def sanitizedShape (l : List Char) : Bool :=
  l.all isGoodChar && noDoubleFrom false l &&
    (l.head? != some '-') && (l.getLast? != some '-')

/-! ## Data model (src/index.ts lines 10-28) -/

deriving instance DecidableEq for Except

/-- `MenuItem` (lines 10-14). -/
structure MenuItem where
  name : String
  price : Int
  tags : List String
deriving DecidableEq

/-- `Category` (lines 16-18). -/
structure Category where
  Items : List MenuItem
deriving DecidableEq

/-- `MenuData` (lines 20-22): a JS object mapping category names to
categories, embedded as its `Object.entries` list in insertion order. -/
abbrev MenuData := List (String × Category)

/-! ## Gemini response shape (as destructured in `generateImage`) -/

/-- `part.inlineData`: `data` may be absent. -/
structure InlineData where
  data : Option String
deriving DecidableEq

/-- One content part of a candidate. -/
structure Part where
  inlineData : Option InlineData
deriving DecidableEq

/-- `candidate.content`: `parts` may be absent. -/
structure Content where
  parts : Option (List Part)
deriving DecidableEq

/-- One candidate of the response. -/
structure Candidate where
  content : Option Content
deriving DecidableEq

/-- The image-generation service response. -/
structure GeminiResponse where
  candidates : Option (List Candidate)
deriving DecidableEq

/-! ## Observable events

Every externally visible action of the pipeline (service calls,
filesystem writes, directory creation, the pacing delay, the final
prompt-cache snapshot write) is recorded in an event trace. -/

inductive Event where
  | gptCall (item : MenuItem) (category : String)
  | geminiCall (model : String) (prompt : String)
  | mkdir (dir : String)
  | write (path : String) (bytes : List Nat)
  | sleep (ms : Nat)
  | snapshot (cache : List (String × String))
deriving DecidableEq

/-- Does this event write the file at path `p`? -/
def isWriteTo (p : String) : Event → Bool
  | .write q _ => q == p
  | _ => false

/-- Is this event the fixed pacing delay? -/
def isSleep : Event → Bool
  | .sleep _ => true
  | _ => false

/-- Is this event the end-of-run prompt-cache snapshot write? -/
def isSnapshot : Event → Bool
  | .snapshot _ => true
  | _ => false

/-- Number of pacing delays in a trace. -/
def sleepCount (events : List Event) : Nat := events.countP isSleep

/-! ## Environment: external services, configuration and the
pre-existing filesystem, all treated as oracles. -/

structure Env where
  /-- `process.env.GOOGLE_API_KEY` is set (truthy). -/
  googleApiKey : Bool
  /-- `process.env.OPENAI_API_KEY` is set (truthy). -/
  openaiApiKey : Bool
  /-- `fs.existsSync(inputDir)`. -/
  inputDirExists : Bool
  /-- `fs.readdirSync(inputDir)` listing. -/
  inputFiles : List String
  /-- `fs.readFileSync` + `JSON.parse` of one input document; `.error`
  models a read/parse exception. -/
  readDoc : String → Except Unit MenuData
  /-- Initial filesystem: which regular files exist before the run. -/
  fsExists0 : String → Bool
  /-- Initial filesystem: which directories exist before the run. -/
  dirExists0 : String → Bool
  /-- The ChatGPT call of `generatePromptWithGPT`: either throws, or
  yields `response.choices[0].message.content` (`none` models a
  null/absent content field). -/
  gpt : MenuItem → String → Except Unit (Option String)
  /-- The Gemini call of `generateImage` (model identifier, prompt). -/
  gemini : String → String → Except Unit GeminiResponse

/-! ## Prompt cache (src/index.ts line 42): a JS `Map<string,string>`,
embedded as an insertion-ordered association list. -/

/-- `Map.has`. -/
def mapHas (m : List (String × String)) (k : String) : Bool :=
  m.any (fun p => p.1 == k)

/-- `Map.get` (returns `undefined` as `none`). -/
def mapGet (m : List (String × String)) (k : String) : Option String :=
  (m.find? (fun p => p.1 == k)).map (fun p => p.2)

/-- `Map.set`: overwrite in place if the key exists, else append. -/
def mapSet (m : List (String × String)) (k v : String) : List (String × String) :=
  if mapHas m k then m.map (fun p => if p.1 == k then (k, v) else p)
  else m ++ [(k, v)]

/-- `getCacheKey` (src/index.ts lines 57-59). -/
def getCacheKey (itemName category : String) : String :=
  category ++ "::" ++ itemName

/-! ## Path helpers -/

/-- `path.join` for the non-empty, already normalised segments this
program joins; `process.cwd()` is taken as the reference point, so all
paths are relative to it. -/
def pathJoin (a b : String) : String := a ++ "/" ++ b

/-- `path.join(process.cwd(), "output")` (line 227), relative to cwd. -/
def outputBaseDir : String := "output"

/-- `path.dirname`: drop the last `/`-separated segment. -/
def dirname (p : String) : String :=
  match p.data.reverse.dropWhile (fun c => c ≠ '/') with
  | [] => "."
  | _ :: rest => if rest = [] then "/" else ⟨rest.reverse⟩

/-- `file.endsWith(".json")`, and also the regex test of
`file.replace` with regex `\.json$`. -/
def endsWithJson (l : List Char) : Bool :=
  5 ≤ l.length && l.drop (l.length - 5) == ".json".data

/-- `file.replace` with regex `\.json$` and replacement `""`. -/
def stripJsonExt (l : List Char) : List Char :=
  if endsWithJson l then l.take (l.length - 5) else l

/-- `segment` derivation (line 234): base name with the `.json`
extension stripped, lower-cased. -/
def segmentOf (file : String) : String :=
  ⟨(stripJsonExt file.data).map Char.toLower⟩

/-- The output path computed for one item (lines 250-252):
`path.join(path.join(outputBaseDir, segment, formattedCategory), fileName)`
with `fileName = formatFileName(item.name) + ".png"`. -/
def outputPathFor (segment formattedCategory itemName : String) : String :=
  pathJoin (pathJoin (pathJoin outputBaseDir segment) formattedCategory)
    (formatFileName itemName ++ ".png")

/-- The output path as claim C4 literally words it: `NameSanitizer` applied
to the segment as well as to the category and item names.  (The code does
not sanitise the segment; this definition exists to be compared against
`outputPathFor`.) -/
def outputPathSpecC4 (file categoryName itemName : String) : String :=
  pathJoin (pathJoin (pathJoin outputBaseDir (formatFileName (segmentOf file)))
    (formatFileName categoryName)) (formatFileName itemName ++ ".png")

/-! ## Base64 decoding (`Buffer.from(data, "base64")`), lenient like
Node: non-alphabet characters (including padding) are ignored. -/

/-- Value of one base64 alphabet character. -/
def base64Val (c : Char) : Option Nat :=
  if 65 ≤ c.toNat ∧ c.toNat ≤ 90 then some (c.toNat - 65)
  else if 97 ≤ c.toNat ∧ c.toNat ≤ 122 then some (c.toNat - 71)
  else if 48 ≤ c.toNat ∧ c.toNat ≤ 57 then some (c.toNat + 4)
  else if c = '+' then some 62
  else if c = '/' then some 63
  else none

/-- Pack 6-bit groups into bytes, discarding a trailing partial byte's
padding bits. -/
def sextetsToBytes : List Nat → List Nat
  | a :: b :: c :: d :: rest =>
    (a * 4 + b / 16) :: ((b % 16) * 16 + c / 4) :: ((c % 4) * 64 + d) ::
      sextetsToBytes rest
  | [a, b] => [a * 4 + b / 16]
  | [a, b, c] => [a * 4 + b / 16, (b % 16) * 16 + c / 4]
  | _ => []

/-- Decoded bytes of a base64 string. -/
def decodeBase64 (s : String) : List Nat :=
  sextetsToBytes (s.data.filterMap base64Val)

/-! ## PromptGenerator (`generatePromptWithGPT`, src/index.ts lines 61-129)

The instruction string built from `PROMPT_TEMPLATE` is handed verbatim
to the external service and never inspected again, so the oracle
receives the item and category it is built from; no claim depends on
the literal text. -/

structure PromptResult where
  result : Except Unit String
  cache : List (String × String)
  events : List Event
deriving DecidableEq

def generatePromptWithGPT (env : Env) (cache : List (String × String))
    (item : MenuItem) (category : String) : PromptResult :=
  let cacheKey := getCacheKey item.name category
  if mapHas cache cacheKey then
    { result := .ok ((mapGet cache cacheKey).getD ""), cache := cache, events := [] }
  else
    match env.gpt item category with
    | .error _ => { result := .error (), cache := cache, events := [.gptCall item category] }
    | .ok content =>
      let generatedPrompt := content.getD ""
      if generatedPrompt = "" then
        { result := .error (), cache := cache, events := [.gptCall item category] }
      else
        { result := .ok generatedPrompt
          cache := mapSet cache cacheKey generatedPrompt
          events := [.gptCall item category] }

/-! ## ImageGenerator (`generateImage`, src/index.ts lines 131-196) -/

/-- The loop guard `part.inlineData && part.inlineData.data` together
with the extraction of `part.inlineData.data` (a JS truthiness check:
absent or empty string fails). -/
def truthyData (part : Part) : Option String :=
  match part.inlineData with
  | some idata =>
    match idata.data with
    | some d => if d = "" then none else some d
    | none => none
  | none => none

/-- The `for (const part of candidate.content.parts)` loop: data of the
first part whose inline data is truthy. -/
def findInlinePart : List Part → Option String
  | [] => none
  | part :: rest =>
    match truthyData part with
    | some d => some d
    | none => findInlinePart rest

structure ImageResult where
  result : Except Unit Unit
  dirs : List String
  events : List Event
deriving DecidableEq

/-- Response handling of `generateImage` (lines 156-185): validate the
candidate list, take the first candidate, find its first inline-data
part, create the output directory if missing, write the decoded bytes.
`dirs` accumulates directories created earlier in the run. -/
def saveImage (env : Env) (dirs : List String) (response : GeminiResponse)
    (outputPath : String) : ImageResult :=
  match response.candidates with
  | none => { result := .error (), dirs := dirs, events := [] }
  | some [] => { result := .error (), dirs := dirs, events := [] }
  | some (candidate :: _) =>
    match candidate.content with
    | none => { result := .error (), dirs := dirs, events := [] }
    | some content =>
      match content.parts with
      | none => { result := .error (), dirs := dirs, events := [] }
      | some parts =>
        match findInlinePart parts with
        | none => { result := .error (), dirs := dirs, events := [] }
        | some d =>
          let outputDir := dirname outputPath
          if env.dirExists0 outputDir || dirs.contains outputDir then
            { result := .ok ()
              dirs := dirs
              events := [.write outputPath (decodeBase64 d)] }
          else
            { result := .ok ()
              dirs := dirs ++ [outputDir]
              events := [.mkdir outputDir, .write outputPath (decodeBase64 d)] }

/-- Default model identifier (line 135). -/
def defaultModel : String := "gemini-2.5-flash-image"

/-- `generateImage` (lines 131-196): credential check, service call,
then response handling. -/
def generateImage (env : Env) (dirs : List String) (prompt outputPath : String) :
    ImageResult :=
  if !env.googleApiKey then { result := .error (), dirs := dirs, events := [] }
  else
    match env.gemini defaultModel prompt with
    | .error _ =>
      { result := .error ()
        dirs := dirs
        events := [.geminiCall defaultModel prompt] }
    | .ok response =>
      let r := saveImage env dirs response outputPath
      { r with events := .geminiCall defaultModel prompt :: r.events }

/-! ## BatchOrchestrator (`main`, src/index.ts lines 198-312) -/

structure RunState where
  processed : Nat
  skipped : Nat
  failed : Nat
  cache : List (String × String)
  dirs : List String
  events : List Event
deriving DecidableEq

/-- `fs.existsSync(outputPath)` during the run: a file exists if it
existed initially or was written earlier in this run. -/
def fileExists (env : Env) (events : List Event) (p : String) : Bool :=
  env.fsExists0 p || events.any (isWriteTo p)

/-- The `try` block of the per-item loop (lines 262-271): prompt stage,
then image stage; `ok` is false when either stage threw. -/
structure AttemptResult where
  ok : Bool
  cache : List (String × String)
  dirs : List String
  events : List Event
deriving DecidableEq

def attemptItem (env : Env) (cache : List (String × String)) (dirs : List String)
    (item : MenuItem) (categoryName outputPath : String) : AttemptResult :=
  let pr := generatePromptWithGPT env cache item categoryName
  match pr.result with
  | .error _ => { ok := false, cache := pr.cache, dirs := dirs, events := pr.events }
  | .ok prompt =>
    let ir := generateImage env dirs prompt outputPath
    match ir.result with
    | .error _ =>
      { ok := false
        cache := pr.cache
        dirs := ir.dirs
        events := pr.events ++ ir.events }
    | .ok _ =>
      { ok := true
        cache := pr.cache
        dirs := ir.dirs
        events := pr.events ++ ir.events }

/-- One iteration of the item loop (lines 249-282): skip if the output
file exists, otherwise attempt both stages; on success count it
processed and pause one second, on failure count it failed. -/
def processItem (env : Env) (segment formattedCategory categoryName : String)
    (st : RunState) (item : MenuItem) : RunState :=
  let outputPath := outputPathFor segment formattedCategory item.name
  if fileExists env st.events outputPath then
    { st with skipped := st.skipped + 1 }
  else
    let ar := attemptItem env st.cache st.dirs item categoryName outputPath
    if ar.ok then
      { processed := st.processed + 1
        skipped := st.skipped
        failed := st.failed
        cache := ar.cache
        dirs := ar.dirs
        events := st.events ++ ar.events ++ [.sleep 1000] }
    else
      { st with
          failed := st.failed + 1
          cache := ar.cache
          dirs := ar.dirs
          events := st.events ++ ar.events }

/-- The category loop body (lines 243-284). -/
def processCategory (env : Env) (segment : String) (st : RunState)
    (categoryName : String) (cat : Category) : RunState :=
  cat.Items.foldl (processItem env segment (formatFileName categoryName) categoryName) st

/-- The per-document work (lines 234-285): derive the segment, then walk
all categories. -/
def processDoc (env : Env) (st : RunState) (file : String) (menuData : MenuData) :
    RunState :=
  menuData.foldl (fun s pair => processCategory env (segmentOf file) s pair.1 pair.2) st

/-- The document loop (lines 233-285): a read/parse failure aborts the
whole run (the surrounding `try` of `main` catches it as fatal). -/
def runDocs (env : Env) : List String → RunState → Except RunState RunState
  | [], st => .ok st
  | file :: rest, st =>
    match env.readDoc file with
    | .error _ => .error st
    | .ok menuData => runDocs env rest (processDoc env st file menuData)

def initState : RunState :=
  { processed := 0, skipped := 0, failed := 0, cache := [], dirs := [], events := [] }

/-- The `.filter((file) => file.endsWith(".json"))` of line 215. -/
def jsonFiles (env : Env) : List String :=
  env.inputFiles.filter (fun f => endsWithJson f.data)

structure RunResult where
  exitCode : Nat
  state : RunState
deriving DecidableEq

/-- `main` (lines 198-312): setup validation, document loop, then the
prompt-cache snapshot write; any escaped exception reaches the outer
`catch` which calls `process.exit(1)` before the snapshot is written. -/
def mainRun (env : Env) : RunResult :=
  if !env.googleApiKey then { exitCode := 1, state := initState }
  else if !env.openaiApiKey then { exitCode := 1, state := initState }
  else if !env.inputDirExists then { exitCode := 1, state := initState }
  else if (jsonFiles env).isEmpty then { exitCode := 1, state := initState }
  else
    match runDocs env (jsonFiles env) initState with
    | .error st => { exitCode := 1, state := st }
    | .ok st =>
      { exitCode := 0
        state := { st with events := st.events ++ [.snapshot st.cache] } }

/-- Sum of the three run counters. -/
def counterSum (st : RunState) : Nat := st.processed + st.skipped + st.failed

/-- Number of items in one parsed document. -/
def itemCountDoc (md : MenuData) : Nat := (md.map (fun p => p.2.Items.length)).sum

/-- Number of items a document contributes: its item count when it
parses, `0` otherwise (only relevant on runs where every document
parses). -/
def docItems (env : Env) (file : String) : Nat :=
  match env.readDoc file with
  | .ok md => itemCountDoc md
  | .error _ => 0

/-- Items enumerated across all input documents of a run. -/
def totalItems (env : Env) : Nat := ((jsonFiles env).map (docItems env)).sum

/-! ## Concrete scenario fixtures (for witnesses and counterexamples) -/

def itemAlpha : MenuItem := { name := "Alpha", price := 1, tags := [] }

def itemBeta : MenuItem := { name := "Beta", price := 2, tags := [] }

/-- A well-formed Gemini response whose single candidate carries one
inline part with base64 payload `d`. -/
def goodResp (d : String) : GeminiResponse :=
  { candidates := some [{ content := some { parts := some [{ inlineData := some { data := some d } }] } }] }

/-- One document `menu.json` with category `Mains` holding `Alpha` then
`Beta`; prompt generation succeeds for both; image generation fails for
`Alpha`'s prompt and succeeds for `Beta`'s. -/
def envTwoItems : Env :=
  { googleApiKey := true
    openaiApiKey := true
    inputDirExists := true
    inputFiles := ["menu.json"]
    readDoc := fun _ => .ok [("Mains", { Items := [itemAlpha, itemBeta] })]
    fsExists0 := fun _ => false
    dirExists0 := fun _ => false
    gpt := fun item _ => .ok (some ("P" ++ item.name))
    gemini := fun _ prompt => if prompt = "PAlpha" then .error () else .ok (goodResp "aGk=") }

/-- Like `envTwoItems`, but `Alpha`'s output file already exists on
disk, so it is skipped. -/
def envSkipAlpha : Env :=
  { envTwoItems with fsExists0 := fun p => p == "output/menu/mains/alpha.png" }

/-- A single item whose prompt stage fails (the ChatGPT call throws). -/
def envPromptFails : Env :=
  { envTwoItems with
      readDoc := fun _ => .ok [("Mains", { Items := [itemAlpha] })]
      gpt := fun _ _ => .error () }

/-- Two documents: `a.json` parses and its single item fully succeeds
(populating the prompt cache), then `b.json` fails to parse. -/
def envParseFail : Env :=
  { envTwoItems with
      inputFiles := ["a.json", "b.json"]
      readDoc := fun file =>
        if file = "a.json" then .ok [("Mains", { Items := [itemBeta] })]
        else .error ()
    }

/-- The run state of `envParseFail` after its first document has been fully
processed — the state at which the parse failure of `b.json` aborts the run. -/
def stAfterDocA : RunState :=
  processDoc envParseFail initState "a.json" [("Mains", { Items := [itemBeta] })]

/-! # Theorems -/

example : formatFileName "Grilled Chicken & Rice (Large)" = "grilled-chicken-rice-large" := by
  decide

example : formatFileName "  --Ab_c9//(x)&&y  " = "ab_c9-x-y" := by decide

example : (mainRun envTwoItems).exitCode = 0 ∧
    (mainRun envTwoItems).state.processed = 1 ∧
    (mainRun envTwoItems).state.skipped = 0 ∧
    (mainRun envTwoItems).state.failed = 1 ∧
    (mainRun envTwoItems).state.events.any (isWriteTo "output/menu/mains/beta.png") = true := by
  decide

example : (mainRun envSkipAlpha).state.skipped = 1 ∧
    (mainRun envSkipAlpha).state.processed = 1 := by decide

example : (mainRun envPromptFails).state.failed = 1 ∧
    sleepCount (mainRun envPromptFails).state.events = 0 := by decide

example : (mainRun envParseFail).exitCode = 1 ∧
    (mainRun envParseFail).state.cache = [("Mains::Beta", "PBeta")] ∧
    (mainRun envParseFail).state.events.any isSnapshot = false := by decide

/-! ## Character-level helper lemmas -/

theorem char_toNat_ofNat (n : Nat) (h : n < 55296) : (Char.ofNat n).toNat = n := by
  have hv : n.isValidChar := Or.inl h
  rw [Char.ofNat, dif_pos hv]
  rfl

theorem char_eq_of_toNat_eq {c d : Char} (h : c.toNat = d.toNat) : c = d := by
  have hc := Char.ofNat_toNat c
  rw [h, Char.ofNat_toNat] at hc
  exact hc.symm

theorem toLower_eq_self {c : Char} (h : ¬(65 ≤ c.toNat ∧ c.toNat ≤ 90)) :
    Char.toLower c = c := by
  unfold Char.toLower
  exact if_neg h

theorem toNat_toLower_upper {c : Char} (h : 65 ≤ c.toNat ∧ c.toNat ≤ 90) :
    (Char.toLower c).toNat = c.toNat + 32 := by
  unfold Char.toLower
  rw [if_pos h]
  exact char_toNat_ofNat _ (by omega)

theorem isGoodChar_iff {c : Char} : isGoodChar c = true ↔
    ((97 ≤ c.toNat ∧ c.toNat ≤ 122) ∨ (48 ≤ c.toNat ∧ c.toNat ≤ 57) ∨
      c.toNat = 95 ∨ c.toNat = 45) := by
  simp [isGoodChar]

theorem isWordChar_iff {c : Char} : isWordChar c = true ↔
    ((65 ≤ c.toNat ∧ c.toNat ≤ 90) ∨ (97 ≤ c.toNat ∧ c.toNat ≤ 122) ∨
      (48 ≤ c.toNat ∧ c.toNat ≤ 57) ∨ c.toNat = 95) := by
  simp [isWordChar]

theorem hyphen_toNat : ('-').toNat = 45 := rfl

theorem eq_hyphen_iff_toNat {c : Char} : c = '-' ↔ c.toNat = 45 := by
  constructor
  · intro h; rw [h]; rfl
  · intro h; exact char_eq_of_toNat_eq h

/-- Good characters are already lower case. -/
theorem toLower_of_good {c : Char} (h : isGoodChar c = true) : Char.toLower c = c := by
  rw [isGoodChar_iff] at h
  apply toLower_eq_self
  omega

/-- Lower-casing a `[\w-]` character yields a good character. -/
theorem isGoodChar_toLower {c : Char} (h : isWordChar c = true ∨ c = '-') :
    isGoodChar (Char.toLower c) = true := by
  rw [isGoodChar_iff]
  rcases h with h | h
  · rw [isWordChar_iff] at h
    by_cases hu : 65 ≤ c.toNat ∧ c.toNat ≤ 90
    · rw [toNat_toLower_upper hu]; omega
    · rw [toLower_eq_self hu]; omega
  · rw [h]
    rw [toLower_eq_self (by rw [hyphen_toNat]; omega), hyphen_toNat]
    omega

/-- Lower-casing turns a character into a hyphen only if it was one. -/
theorem toLower_eq_hyphen_iff {c : Char} : Char.toLower c = '-' ↔ c = '-' := by
  constructor
  · intro h
    by_cases hu : 65 ≤ c.toNat ∧ c.toNat ≤ 90
    · exfalso
      have := toNat_toLower_upper hu
      rw [h, hyphen_toNat] at this
      omega
    · rwa [toLower_eq_self hu] at h
  · intro h
    rw [h]
    exact toLower_eq_self (by rw [hyphen_toNat]; omega)

theorem beq_hyphen_toLower (c : Char) : (Char.toLower c == '-') = (c == '-') := by
  by_cases hc : c = '-'
  · rw [toLower_eq_hyphen_iff.mpr hc, hc]
  · have hl : ¬ Char.toLower c = '-' := fun h => hc (toLower_eq_hyphen_iff.mp h)
    simp [hc, hl]

theorem isJsWhitespace_iff {c : Char} : isJsWhitespace c = true ↔
    ((9 ≤ c.toNat ∧ c.toNat ≤ 13) ∨ c.toNat = 32 ∨ c.toNat = 0xa0 ∨
      c.toNat = 0x1680 ∨ (0x2000 ≤ c.toNat ∧ c.toNat ≤ 0x200a) ∨ c.toNat = 0x2028 ∨
      c.toNat = 0x2029 ∨ c.toNat = 0x202f ∨ c.toNat = 0x205f ∨ c.toNat = 0x3000 ∨
      c.toNat = 0xfeff) := by
  simp [isJsWhitespace]

theorem good_not_ws {c : Char} (h : isGoodChar c = true) : isJsWhitespace c = false := by
  rw [isGoodChar_iff] at h
  rw [← Bool.not_eq_true, isJsWhitespace_iff]
  omega

/-! ## Transducer lemmas for the sanitiser -/

theorem mapIdOn {α : Type} (l : List α) (f : α → α) (h : ∀ c ∈ l, f c = c) :
    l.map f = l := by
  induction l with
  | nil => rfl
  | cons c cs ih =>
    simp only [List.map_cons]
    rw [h c (by simp), ih (fun x hx => h x (by simp [hx]))]

theorem replaceWsRuns_eq_self (l : List Char) (h : ∀ c ∈ l, isJsWhitespace c = false) :
    ∀ b, replaceWsRuns b l = l := by
  induction l with
  | nil => intro b; rfl
  | cons c cs ih =>
    intro b
    have hc : isJsWhitespace c = false := h c (by simp)
    rw [replaceWsRuns, if_neg (by simp [hc])]
    rw [ih (fun x hx => h x (by simp [hx])) false]

theorem mem_collapseHyphens {c : Char} :
    ∀ (l : List Char) (b : Bool), c ∈ collapseHyphens b l → c = '-' ∨ c ∈ l := by
  intro l
  induction l with
  | nil => intro b h; rw [collapseHyphens] at h; simp at h
  | cons d ds ih =>
    intro b h
    by_cases hd : d = '-'
    · subst hd
      rw [collapseHyphens, if_pos rfl] at h
      rcases List.mem_append.mp h with h1 | h2
      · left
        cases b with
        | true => simp at h1
        | false => simpa using h1
      · rcases ih true h2 with h3 | h3
        · left; exact h3
        · right; simp [h3]
    · rw [collapseHyphens, if_neg hd] at h
      rcases List.mem_cons.mp h with h1 | h2
      · right; simp [h1]
      · rcases ih false h2 with h3 | h3
        · left; exact h3
        · right; simp [h3]

theorem noDoubleFrom_collapseHyphens :
    ∀ (l : List Char) (b : Bool), noDoubleFrom b (collapseHyphens b l) = true := by
  intro l
  induction l with
  | nil => intro b; rfl
  | cons d ds ih =>
    intro b
    by_cases hd : d = '-'
    · subst hd
      cases b with
      | true =>
        rw [collapseHyphens, if_pos rfl]
        simpa using ih true
      | false =>
        rw [collapseHyphens, if_pos rfl]
        simp only [List.nil_append, List.singleton_append, Bool.false_eq_true,
          if_false, noDoubleFrom]
        simpa using ih true
    · rw [collapseHyphens, if_neg hd, noDoubleFrom]
      have hb : (d == '-') = false := by simp [hd]
      rw [hb]
      simpa using ih false

theorem collapseHyphens_eq_self :
    ∀ (l : List Char) (b : Bool), noDoubleFrom b l = true → collapseHyphens b l = l := by
  intro l
  induction l with
  | nil => intro b _; rfl
  | cons d ds ih =>
    intro b h
    rw [noDoubleFrom, Bool.and_eq_true] at h
    by_cases hd : d = '-'
    · subst hd
      have hb : b = false := by
        cases b
        · rfl
        · simpa using h.1
      subst hb
      rw [collapseHyphens, if_pos rfl]
      simp only [Bool.false_eq_true, if_false, List.nil_append, List.singleton_append]
      rw [ih true (by simpa using h.2)]
    · rw [collapseHyphens, if_neg hd]
      have hb : (d == '-') = false := by simp [hd]
      have h2 := h.2
      rw [hb] at h2
      rw [ih false h2]

theorem head_ne_hyphen_of_noDoubleFrom_true {l : List Char}
    (h : noDoubleFrom true l = true) : l.head? ≠ some '-' := by
  cases l with
  | nil => simp
  | cons c cs =>
    rw [noDoubleFrom, Bool.and_eq_true] at h
    have h1 := h.1
    simp only [List.head?_cons, ne_eq, Option.some.injEq]
    intro hc
    rw [hc] at h1
    simp at h1

theorem noDoubleFrom_false_of_true {l : List Char} (h : noDoubleFrom true l = true) :
    noDoubleFrom false l = true := by
  cases l with
  | nil => rfl
  | cons c cs =>
    rw [noDoubleFrom, Bool.and_eq_true] at h
    rw [noDoubleFrom, Bool.and_eq_true]
    exact ⟨by simp, h.2⟩

theorem noDoubleFrom_dropLast :
    ∀ (l : List Char) (b : Bool), noDoubleFrom b l = true →
      noDoubleFrom b l.dropLast = true := by
  intro l
  induction l with
  | nil => intro b _; rfl
  | cons c cs ih =>
    intro b h
    cases cs with
    | nil => rfl
    | cons d ds =>
      rw [List.dropLast_cons₂]
      rw [noDoubleFrom, Bool.and_eq_true] at h
      rw [noDoubleFrom, Bool.and_eq_true]
      exact ⟨h.1, ih (c == '-') h.2⟩

theorem dropLast_getLast_ne_hyphen :
    ∀ (l : List Char) (b : Bool), noDoubleFrom b l = true → l.getLast? = some '-' →
      l.dropLast.getLast? ≠ some '-' := by
  intro l
  induction l with
  | nil => intro b _ hl; simp at hl
  | cons c cs ih =>
    intro b h hl
    cases cs with
    | nil => simp
    | cons d ds =>
      rw [noDoubleFrom, Bool.and_eq_true] at h
      rw [List.getLast?_cons_cons] at hl
      cases ds with
      | nil =>
        have hd : d = '-' := by simpa using hl
        subst hd
        have h2 := h.2
        rw [noDoubleFrom, Bool.and_eq_true] at h2
        have h3 := h2.1
        simp only [beq_self_eq_true, Bool.and_true, Bool.not_eq_eq_eq_not,
          Bool.not_true] at h3
        simp only [List.dropLast_cons₂, List.dropLast_single, List.getLast?_singleton,
          ne_eq, Option.some.injEq]
        intro hc
        rw [hc] at h3
        simp at h3
      | cons e es =>
        rw [List.dropLast_cons₂, List.dropLast_cons₂, List.getLast?_cons_cons,
          ← List.dropLast_cons₂]
        exact ih (c == '-') h.2 hl

theorem mem_dropLeadingHyphen {c : Char} {l : List Char}
    (h : c ∈ dropLeadingHyphen l) : c ∈ l := by
  unfold dropLeadingHyphen at h
  split at h
  · exact List.mem_of_mem_tail h
  · exact h

theorem noDoubleFrom_dropLeadingHyphen {l : List Char}
    (h : noDoubleFrom false l = true) :
    noDoubleFrom false (dropLeadingHyphen l) = true := by
  unfold dropLeadingHyphen
  split
  case isTrue hh =>
    cases l with
    | nil => rfl
    | cons c cs =>
      simp only [List.head?_cons, Option.some.injEq] at hh
      subst hh
      rw [noDoubleFrom, Bool.and_eq_true] at h
      have h2 := h.2
      simp only [beq_self_eq_true] at h2
      exact noDoubleFrom_false_of_true h2
  case isFalse => exact h

theorem head_dropLeadingHyphen {l : List Char} (h : noDoubleFrom false l = true) :
    (dropLeadingHyphen l).head? ≠ some '-' := by
  unfold dropLeadingHyphen
  split
  case isTrue hh =>
    cases l with
    | nil => simp
    | cons c cs =>
      simp only [List.head?_cons, Option.some.injEq] at hh
      subst hh
      rw [noDoubleFrom, Bool.and_eq_true] at h
      have h2 := h.2
      simp only [beq_self_eq_true] at h2
      exact head_ne_hyphen_of_noDoubleFrom_true h2
  case isFalse hh => exact hh

theorem mem_dropTrailingHyphen {c : Char} {l : List Char}
    (h : c ∈ dropTrailingHyphen l) : c ∈ l := by
  unfold dropTrailingHyphen at h
  split at h
  · exact List.dropLast_subset _ h
  · exact h

theorem noDoubleFrom_dropTrailingHyphen {l : List Char}
    (h : noDoubleFrom false l = true) :
    noDoubleFrom false (dropTrailingHyphen l) = true := by
  unfold dropTrailingHyphen
  split
  · exact noDoubleFrom_dropLast l false h
  · exact h

theorem head_dropTrailingHyphen {l : List Char} (h : l.head? ≠ some '-') :
    (dropTrailingHyphen l).head? ≠ some '-' := by
  unfold dropTrailingHyphen
  split
  · cases l with
    | nil => simp
    | cons c cs =>
      cases cs with
      | nil => simp
      | cons d ds =>
        rw [List.dropLast_cons₂]
        simpa using h
  · exact h

theorem getLast_dropTrailingHyphen {l : List Char} (h : noDoubleFrom false l = true) :
    (dropTrailingHyphen l).getLast? ≠ some '-' := by
  unfold dropTrailingHyphen
  split
  case isTrue hh => exact dropLast_getLast_ne_hyphen l false h hh
  case isFalse hh => exact hh

theorem noDoubleFrom_map_toLower :
    ∀ (l : List Char) (b : Bool), noDoubleFrom b l = true →
      noDoubleFrom b (l.map Char.toLower) = true := by
  intro l
  induction l with
  | nil => intro b _; rfl
  | cons c cs ih =>
    intro b h
    rw [noDoubleFrom, Bool.and_eq_true] at h
    simp only [List.map_cons]
    rw [noDoubleFrom, Bool.and_eq_true, beq_hyphen_toLower]
    exact ⟨h.1, ih (c == '-') h.2⟩

theorem head_map_toLower {l : List Char} (h : l.head? ≠ some '-') :
    (l.map Char.toLower).head? ≠ some '-' := by
  cases l with
  | nil => simp
  | cons c cs =>
    simp only [List.map_cons, List.head?_cons, ne_eq, Option.some.injEq] at h ⊢
    intro hc
    exact h (toLower_eq_hyphen_iff.mp hc)

theorem getLast_map_toLower {l : List Char} (h : l.getLast? ≠ some '-') :
    (l.map Char.toLower).getLast? ≠ some '-' := by
  rw [List.getLast?_eq_head?_reverse] at h ⊢
  rw [← List.map_reverse]
  exact head_map_toLower h

/-! ## The sanitiser's output shape (core of C8) and fixpoint (core of C7) -/

theorem shape_core (m : List Char) :
    sanitizedShape ((dropTrailingHyphen (dropLeadingHyphen (collapseHyphens false
      (m.map (fun c => if isWordChar c || c == '-' then c else '-'))))).map
        Char.toLower) = true := by
  have h6 : ∀ c ∈ m.map (fun c => if isWordChar c || c == '-' then c else '-'),
      isWordChar c = true ∨ c = '-' := by
    intro c hc
    rcases List.mem_map.mp hc with ⟨x, _, hfx⟩
    by_cases hw : (isWordChar x || x == '-') = true
    · rw [if_pos hw] at hfx
      subst hfx
      rcases Bool.or_eq_true_iff.mp hw with h | h
      · left; exact h
      · right; exact (beq_iff_eq).mp h
    · rw [if_neg hw] at hfx
      right; exact hfx.symm
  set s7 := collapseHyphens false
    (m.map (fun c => if isWordChar c || c == '-' then c else '-')) with hs7
  have h7mem : ∀ c ∈ s7, isWordChar c = true ∨ c = '-' := by
    intro c hc
    rcases mem_collapseHyphens _ false hc with h | h
    · right; exact h
    · exact h6 c h
  have h7nd : noDoubleFrom false s7 = true := noDoubleFrom_collapseHyphens _ false
  set s8 := dropTrailingHyphen (dropLeadingHyphen s7) with hs8
  have h8mem : ∀ c ∈ s8, isWordChar c = true ∨ c = '-' := fun c hc =>
    h7mem c (mem_dropLeadingHyphen (mem_dropTrailingHyphen hc))
  have hLnd : noDoubleFrom false (dropLeadingHyphen s7) = true :=
    noDoubleFrom_dropLeadingHyphen h7nd
  have h8nd : noDoubleFrom false s8 = true := noDoubleFrom_dropTrailingHyphen hLnd
  have h8head : s8.head? ≠ some '-' :=
    head_dropTrailingHyphen (head_dropLeadingHyphen h7nd)
  have h8last : s8.getLast? ≠ some '-' := getLast_dropTrailingHyphen hLnd
  unfold sanitizedShape
  rw [Bool.and_eq_true, Bool.and_eq_true, Bool.and_eq_true]
  refine ⟨⟨⟨?_, ?_⟩, ?_⟩, ?_⟩
  · rw [List.all_eq_true]
    intro c hc
    rcases List.mem_map.mp hc with ⟨x, hx, hfx⟩
    subst hfx
    exact isGoodChar_toLower (h8mem x hx)
  · exact noDoubleFrom_map_toLower s8 false h8nd
  · simpa using head_map_toLower h8head
  · simpa using getLast_map_toLower h8last

theorem sanitizedShape_formatFileNameL (l : List Char) :
    sanitizedShape (formatFileNameL l) = true := by
  unfold formatFileNameL
  exact shape_core _

theorem formatFileNameL_eq_self {l : List Char} (h : sanitizedShape l = true) :
    formatFileNameL l = l := by
  unfold sanitizedShape at h
  rw [Bool.and_eq_true, Bool.and_eq_true, Bool.and_eq_true] at h
  obtain ⟨⟨⟨hall, hnd⟩, hhead⟩, hlast⟩ := h
  rw [List.all_eq_true] at hall
  rw [bne_iff_ne] at hhead hlast
  have hgood : ∀ c ∈ l, isGoodChar c = true := fun c hc => hall c hc
  unfold formatFileNameL
  dsimp only
  rw [replaceWsRuns_eq_self l (fun c hc => good_not_ws (hgood c hc)) false]
  rw [mapIdOn l _ (fun c hc => if_neg (fun he : c = '/' => by
    subst he; exact absurd (hgood _ hc) (by decide)))]
  rw [mapIdOn l _ (fun c hc => if_neg (fun he : c = '&' => by
    subst he; exact absurd (hgood _ hc) (by decide)))]
  rw [mapIdOn l _ (fun c hc => if_neg (fun he : c = '(' => by
    subst he; exact absurd (hgood _ hc) (by decide)))]
  rw [mapIdOn l _ (fun c hc => if_neg (fun he : c = ')' => by
    subst he; exact absurd (hgood _ hc) (by decide)))]
  rw [mapIdOn l _ (fun c hc => by
    have hg := (isGoodChar_iff).mp (hgood c hc)
    have : (isWordChar c || c == '-') = true := by
      rcases hg with h1 | h1 | h1 | h1
      · exact Bool.or_eq_true_iff.mpr (Or.inl ((isWordChar_iff).mpr (by omega)))
      · exact Bool.or_eq_true_iff.mpr (Or.inl ((isWordChar_iff).mpr (by omega)))
      · exact Bool.or_eq_true_iff.mpr (Or.inl ((isWordChar_iff).mpr (by omega)))
      · exact Bool.or_eq_true_iff.mpr (Or.inr (beq_iff_eq.mpr
          (eq_hyphen_iff_toNat.mpr h1)))
    rw [if_pos this])]
  rw [collapseHyphens_eq_self l false hnd]
  rw [dropLeadingHyphen, if_neg hhead]
  rw [dropTrailingHyphen, if_neg hlast]
  exact mapIdOn l _ (fun c hc => toLower_of_good (hgood c hc))

/-- Claim C7: for every input string `x`,
`sanitize (sanitize x) = sanitize x` — the sanitiser (`formatFileName`)
is idempotent. -/
theorem C7_sanitize_idempotent :
    ∀ x : String, formatFileName (formatFileName x) = formatFileName x := by
  intro x
  have h := formatFileNameL_eq_self (sanitizedShape_formatFileNameL x.data)
  calc formatFileName (formatFileName x)
      = ⟨formatFileNameL (formatFileNameL x.data)⟩ := rfl
    _ = ⟨formatFileNameL x.data⟩ := by rw [h]
    _ = formatFileName x := rfl

/-- Claim C8: for every input string, the sanitiser's output contains only
lowercase alphanumerics, underscore and hyphen, with no leading hyphen, no
trailing hyphen and no doubled hyphen; in particular
`sanitize "Grilled Chicken & Rice (Large)" = "grilled-chicken-rice-large"`. -/
theorem C8_sanitize_shape :
    (∀ x : String, sanitizedShape (formatFileName x).data = true) ∧
    formatFileName "Grilled Chicken & Rice (Large)" = "grilled-chicken-rice-large" := by
  constructor
  · intro x
    exact sanitizedShape_formatFileNameL x.data
  · decide

/-! ## Prompt-cache (JS Map) lemmas -/

theorem find?_cons_pair (p : String × String) (ps : List (String × String)) (k : String) :
    List.find? (fun q => q.1 == k) (p :: ps) =
      if (p.1 == k) = true then some p else List.find? (fun q => q.1 == k) ps := by
  rw [List.find?]
  by_cases hp : (p.1 == k) = true
  · rw [if_pos hp]
    simp only [hp]
  · rw [if_neg hp]
    simp only [Bool.eq_false_iff.mpr hp]

theorem mapHas_iff_get {m : List (String × String)} {k : String} :
    mapHas m k = true ↔ ∃ v, mapGet m k = some v := by
  induction m with
  | nil => simp [mapHas, mapGet]
  | cons p ps ih =>
    rw [mapHas, List.any_cons, mapGet, find?_cons_pair]
    by_cases hp : (p.1 == k) = true
    · simp [hp]
    · rw [if_neg hp, Bool.eq_false_iff.mpr hp, Bool.false_or]
      exact ih

theorem mapGet_mapSet (m : List (String × String)) (k v : String) :
    mapGet (mapSet m k v) k = some v := by
  induction m with
  | nil => simp [mapSet, mapHas, mapGet]
  | cons p ps ih =>
    by_cases hp : (p.1 == k) = true
    · rw [mapSet, if_pos (by rw [mapHas, List.any_cons, hp, Bool.true_or])]
      rw [List.map_cons, if_pos hp]
      rw [mapGet, find?_cons_pair, if_pos (by simp)]
      rfl
    · have hcons : mapHas (p :: ps) k = mapHas ps k := by
        rw [mapHas, List.any_cons, Bool.eq_false_iff.mpr hp, Bool.false_or]; rfl
      by_cases hps : mapHas ps k = true
      · rw [mapSet, if_pos (by rw [hcons]; exact hps)]
        rw [List.map_cons, if_neg hp]
        rw [mapGet, find?_cons_pair, if_neg hp]
        rw [mapSet, if_pos hps] at ih
        exact ih
      · rw [mapSet, if_neg (by rw [hcons]; exact hps)]
        rw [List.cons_append]
        rw [mapGet, find?_cons_pair, if_neg hp]
        rw [mapSet, if_neg hps] at ih
        exact ih

theorem mapHas_mapSet (m : List (String × String)) (k v : String) :
    mapHas (mapSet m k v) k = true :=
  mapHas_iff_get.mpr ⟨v, mapGet_mapSet m k v⟩

/-! ## Claim C2: skip-if-exists -/

/-- Claim C2: when the computed output path already exists, the item is
skipped: `skipped` grows by one, processing moves on, and nothing else
changes — no new events (so zero calls to either service for that item),
and `processed`, `failed` and the prompt cache are untouched. -/
theorem C2_skip_if_exists (env : Env) (segment fcat cname : String)
    (st : RunState) (item : MenuItem)
    (h : fileExists env st.events (outputPathFor segment fcat item.name) = true) :
    (processItem env segment fcat cname st item).skipped = st.skipped + 1 ∧
    (processItem env segment fcat cname st item).processed = st.processed ∧
    (processItem env segment fcat cname st item).failed = st.failed ∧
    (processItem env segment fcat cname st item).cache = st.cache ∧
    (processItem env segment fcat cname st item).events = st.events := by
  unfold processItem
  rw [if_pos h]
  exact ⟨rfl, rfl, rfl, rfl, rfl⟩

theorem C2_skip_if_exists_witness :
    fileExists envSkipAlpha initState.events
      (outputPathFor "menu" "mains" itemAlpha.name) = true ∧
    ((processItem envSkipAlpha "menu" "mains" "Mains" initState itemAlpha).skipped =
        initState.skipped + 1 ∧
      (processItem envSkipAlpha "menu" "mains" "Mains" initState itemAlpha).processed =
        initState.processed ∧
      (processItem envSkipAlpha "menu" "mains" "Mains" initState itemAlpha).failed =
        initState.failed ∧
      (processItem envSkipAlpha "menu" "mains" "Mains" initState itemAlpha).cache =
        initState.cache ∧
      (processItem envSkipAlpha "menu" "mains" "Mains" initState itemAlpha).events =
        initState.events) :=
  ⟨by decide,
    C2_skip_if_exists envSkipAlpha "menu" "mains" "Mains" initState itemAlpha (by decide)⟩

/-! ## Claim C3: prompt memoization, failures not cached -/

/-- Claim C3: `generatePromptWithGPT` memoizes prompts per
`category::item.name` key. On a cache hit, the cached value is returned
with no service call and no cache change; on a successful service call
returning non-empty text, the text is stored under the key and returned,
so a second call for the same pair hits the cache and makes no service
call; on a failed call or an empty/absent response the error propagates
and the cache is unchanged. -/
theorem C3_prompt_memoization (env : Env) (cache : List (String × String))
    (item : MenuItem) (category : String) :
    (∀ v, mapGet cache (getCacheKey item.name category) = some v →
      generatePromptWithGPT env cache item category =
        { result := .ok v, cache := cache, events := [] }) ∧
    (∀ t, mapHas cache (getCacheKey item.name category) = false →
      env.gpt item category = .ok (some t) → t ≠ "" →
      (generatePromptWithGPT env cache item category =
        { result := .ok t
          cache := mapSet cache (getCacheKey item.name category) t
          events := [.gptCall item category] } ∧
      generatePromptWithGPT env
          (mapSet cache (getCacheKey item.name category) t) item category =
        { result := .ok t
          cache := mapSet cache (getCacheKey item.name category) t
          events := [] })) ∧
    (mapHas cache (getCacheKey item.name category) = false →
      (env.gpt item category = .error () ∨
        (∃ o, env.gpt item category = .ok o ∧ o.getD "" = "")) →
      (generatePromptWithGPT env cache item category).result = .error () ∧
      (generatePromptWithGPT env cache item category).cache = cache) := by
  refine ⟨?_, ?_, ?_⟩
  · intro v hv
    have hhas : mapHas cache (getCacheKey item.name category) = true :=
      mapHas_iff_get.mpr ⟨v, hv⟩
    unfold generatePromptWithGPT
    dsimp only
    rw [if_pos hhas, hv]
    simp only [Option.getD_some]
  · intro t hnot hg ht
    constructor
    · unfold generatePromptWithGPT
      dsimp only
      rw [if_neg (by rw [hnot]; exact Bool.false_ne_true), hg]
      simp only [Option.getD_some]
      rw [if_neg ht]
    · have hhas2 : mapHas (mapSet cache (getCacheKey item.name category) t)
          (getCacheKey item.name category) = true := mapHas_mapSet _ _ _
      unfold generatePromptWithGPT
      dsimp only
      rw [if_pos hhas2, mapGet_mapSet]
      simp only [Option.getD_some]
  · intro hnot hfail
    unfold generatePromptWithGPT
    dsimp only
    rw [if_neg (by rw [hnot]; exact Bool.false_ne_true)]
    rcases hfail with herr | ⟨o, hok, ho⟩
    · rw [herr]
      exact ⟨rfl, rfl⟩
    · rw [hok]
      dsimp only
      rw [if_pos ho]
      exact ⟨rfl, rfl⟩

theorem C3_prompt_memoization_witness :
    mapHas [] (getCacheKey itemAlpha.name "Mains") = false ∧
    envTwoItems.gpt itemAlpha "Mains" = .ok (some "PAlpha") ∧
    "PAlpha" ≠ "" ∧
    (generatePromptWithGPT envTwoItems [] itemAlpha "Mains" =
      { result := .ok "PAlpha"
        cache := mapSet [] (getCacheKey itemAlpha.name "Mains") "PAlpha"
        events := [.gptCall itemAlpha "Mains"] } ∧
    generatePromptWithGPT envTwoItems
        (mapSet [] (getCacheKey itemAlpha.name "Mains") "PAlpha") itemAlpha "Mains" =
      { result := .ok "PAlpha"
        cache := mapSet [] (getCacheKey itemAlpha.name "Mains") "PAlpha"
        events := [] }) :=
  ⟨by decide, by decide, by decide,
    (C3_prompt_memoization envTwoItems [] itemAlpha "Mains").2.1 "PAlpha"
      (by decide) (by decide) (by decide)⟩

/-! ## Claim C5: first-match-wins image extraction -/

theorem findInlinePart_eq_some_iff (parts : List Part) (d : String) :
    findInlinePart parts = some d ↔
      ∃ l1 p l2, parts = l1 ++ p :: l2 ∧ truthyData p = some d ∧
        ∀ q ∈ l1, truthyData q = none := by
  constructor
  · intro h
    induction parts with
    | nil => simp [findInlinePart] at h
    | cons p rest ih =>
      rw [findInlinePart] at h
      cases htr : truthyData p with
      | some e =>
        rw [htr] at h
        refine ⟨[], p, rest, by simp, ?_, by simp⟩
        rw [htr]
        exact h
      | none =>
        rw [htr] at h
        obtain ⟨l1, q, l2, heq, hq, hall⟩ := ih h
        refine ⟨p :: l1, q, l2, by rw [heq]; rfl, hq, ?_⟩
        intro x hx
        rcases List.mem_cons.mp hx with hx | hx
        · rw [hx]; exact htr
        · exact hall x hx
  · intro ⟨l1, p, l2, heq, hp, hall⟩
    subst heq
    induction l1 with
    | nil =>
      rw [List.nil_append, findInlinePart, hp]
    | cons q l1 ih =>
      rw [List.cons_append, findInlinePart, hall q (by simp)]
      exact ih (fun x hx => hall x (by simp [hx]))

theorem saveImage_error_events (env : Env) (dirs : List String)
    (resp : GeminiResponse) (op : String)
    (h : (saveImage env dirs resp op).result = .error ()) :
    (saveImage env dirs resp op).events = [] := by
  obtain ⟨cands⟩ := resp
  cases cands with
  | none => rfl
  | some cs =>
    cases cs with
    | nil => rfl
    | cons c0 rest =>
      obtain ⟨oct⟩ := c0
      cases oct with
      | none => rfl
      | some ct =>
        obtain ⟨ops⟩ := ct
        cases ops with
        | none => rfl
        | some parts =>
          unfold saveImage at h ⊢
          dsimp only at h ⊢
          cases hfp : findInlinePart parts with
          | none => rfl
          | some d =>
            rw [hfp] at h
            dsimp only at h
            split at h
            · exact absurd h (by simp)
            · exact absurd h (by simp)

theorem saveImage_success (env : Env) (dirs : List String) (op : String)
    (c0 : Candidate) (ct : Content) (parts : List Part) (d : String)
    (rest : List Candidate) (hc : c0.content = some ct)
    (hps : ct.parts = some parts) (hfp : findInlinePart parts = some d) :
    saveImage env dirs { candidates := some (c0 :: rest) } op =
      { result := .ok ()
        dirs := if env.dirExists0 (dirname op) || dirs.contains (dirname op)
          then dirs else dirs ++ [dirname op]
        events := (if env.dirExists0 (dirname op) || dirs.contains (dirname op)
          then [] else [.mkdir (dirname op)]) ++ [.write op (decodeBase64 d)] } := by
  unfold saveImage
  dsimp only
  rw [hc]
  dsimp only
  rw [hps]
  dsimp only
  rw [hfp]
  dsimp only
  split
  · rw [List.nil_append]
  · rfl

/-- Claim C5: the image generator inspects only the first candidate's
parts in order: the first part with a truthy inline payload is decoded
and written, everything after it (and every later candidate) is ignored;
an empty candidate list, a malformed first candidate, or a first
candidate without any inline payload yields an error with no file
written and no fallback to later candidates. -/
theorem C5_first_match_extraction :
    (∀ (parts : List Part) (d : String),
      findInlinePart parts = some d ↔
        ∃ l1 p l2, parts = l1 ++ p :: l2 ∧ truthyData p = some d ∧
          ∀ q ∈ l1, truthyData q = none) ∧
    (∀ (env : Env) (dirs : List String) (c0 : Candidate)
        (rest rest2 : List Candidate) (op : String),
      saveImage env dirs { candidates := some (c0 :: rest) } op =
        saveImage env dirs { candidates := some (c0 :: rest2) } op) ∧
    (∀ (env : Env) (dirs : List String) (resp : GeminiResponse) (op : String),
      (saveImage env dirs resp op).result = .error () →
        (saveImage env dirs resp op).events = []) ∧
    (∀ (env : Env) (dirs : List String) (op : String) (c0 : Candidate)
        (ct : Content) (parts : List Part) (d : String) (rest : List Candidate),
      c0.content = some ct → ct.parts = some parts →
      findInlinePart parts = some d →
      saveImage env dirs { candidates := some (c0 :: rest) } op =
        { result := .ok ()
          dirs := if env.dirExists0 (dirname op) || dirs.contains (dirname op)
            then dirs else dirs ++ [dirname op]
          events := (if env.dirExists0 (dirname op) || dirs.contains (dirname op)
            then [] else [.mkdir (dirname op)]) ++ [.write op (decodeBase64 d)] }) ∧
    (∀ (env : Env) (dirs : List String) (op : String),
      (saveImage env dirs { candidates := none } op).result = .error () ∧
      (saveImage env dirs { candidates := some [] } op).result = .error ()) ∧
    (∀ (env : Env) (dirs : List String) (op : String) (c0 : Candidate)
        (rest : List Candidate),
      c0.content = none →
      (saveImage env dirs { candidates := some (c0 :: rest) } op).result = .error ()) ∧
    (∀ (env : Env) (dirs : List String) (op : String) (c0 : Candidate)
        (ct : Content) (rest : List Candidate),
      c0.content = some ct → ct.parts = none →
      (saveImage env dirs { candidates := some (c0 :: rest) } op).result = .error ()) ∧
    (∀ (env : Env) (dirs : List String) (op : String) (c0 : Candidate)
        (ct : Content) (parts : List Part) (rest : List Candidate),
      c0.content = some ct → ct.parts = some parts → findInlinePart parts = none →
      (saveImage env dirs { candidates := some (c0 :: rest) } op).result = .error ()) := by
  refine ⟨findInlinePart_eq_some_iff, ?_, saveImage_error_events, saveImage_success,
    fun env dirs op => ⟨rfl, rfl⟩, ?_, ?_, ?_⟩
  · intro env dirs c0 rest rest2 op
    rfl
  · intro env dirs op c0 rest hc
    unfold saveImage
    dsimp only
    rw [hc]
  · intro env dirs op c0 ct rest hc hps
    unfold saveImage
    dsimp only
    rw [hc]
    dsimp only
    rw [hps]
  · intro env dirs op c0 ct parts rest hc hps hfp
    unfold saveImage
    dsimp only
    rw [hc]
    dsimp only
    rw [hps]
    dsimp only
    rw [hfp]

theorem C5_first_match_extraction_witness :
    ((goodResp "aGk=").candidates = some
        [{ content := some { parts := some [{ inlineData := some { data := some "aGk=" } }] } }] ∧
      findInlinePart [{ inlineData := some { data := some "aGk=" } }] = some "aGk=") ∧
    saveImage envTwoItems [] (goodResp "aGk=") "output/menu/mains/beta.png" =
      { result := .ok ()
        dirs := if envTwoItems.dirExists0 (dirname "output/menu/mains/beta.png") ||
            List.contains [] (dirname "output/menu/mains/beta.png")
          then [] else [] ++ [dirname "output/menu/mains/beta.png"]
        events := (if envTwoItems.dirExists0 (dirname "output/menu/mains/beta.png") ||
            List.contains [] (dirname "output/menu/mains/beta.png")
          then [] else [.mkdir (dirname "output/menu/mains/beta.png")]) ++
          [.write "output/menu/mains/beta.png" (decodeBase64 "aGk=")] } :=
  ⟨⟨by decide, by decide⟩,
    (C5_first_match_extraction).2.2.2.1 envTwoItems [] "output/menu/mains/beta.png"
      { content := some { parts := some [{ inlineData := some { data := some "aGk=" } }] } }
      { parts := some [{ inlineData := some { data := some "aGk=" } }] }
      [{ inlineData := some { data := some "aGk=" } }] "aGk=" []
      rfl rfl (by decide)⟩

/-! ## Event accounting: the per-item service calls and writes contain no
pacing delay and no snapshot beyond the ones the orchestrator adds
explicitly -/

theorem prompt_events_clean (env : Env) (cache : List (String × String))
    (item : MenuItem) (category : String) :
    sleepCount (generatePromptWithGPT env cache item category).events = 0 ∧
    (generatePromptWithGPT env cache item category).events.any isSnapshot = false := by
  unfold generatePromptWithGPT
  dsimp only
  split
  · exact ⟨rfl, rfl⟩
  · cases h : env.gpt item category with
    | error e => exact ⟨rfl, rfl⟩
    | ok content =>
      dsimp only
      split
      · exact ⟨rfl, rfl⟩
      · exact ⟨rfl, rfl⟩

theorem saveImage_events_clean (env : Env) (dirs : List String)
    (resp : GeminiResponse) (op : String) :
    sleepCount (saveImage env dirs resp op).events = 0 ∧
    (saveImage env dirs resp op).events.any isSnapshot = false := by
  obtain ⟨cands⟩ := resp
  cases cands with
  | none => exact ⟨rfl, rfl⟩
  | some cs =>
    cases cs with
    | nil => exact ⟨rfl, rfl⟩
    | cons c0 rest =>
      obtain ⟨oct⟩ := c0
      cases oct with
      | none => exact ⟨rfl, rfl⟩
      | some ct =>
        obtain ⟨ops⟩ := ct
        cases ops with
        | none => exact ⟨rfl, rfl⟩
        | some parts =>
          unfold saveImage
          dsimp only
          cases hfp : findInlinePart parts with
          | none => exact ⟨rfl, rfl⟩
          | some d =>
            dsimp only
            split
            · exact ⟨rfl, rfl⟩
            · exact ⟨rfl, rfl⟩

theorem image_events_clean (env : Env) (dirs : List String) (prompt op : String) :
    sleepCount (generateImage env dirs prompt op).events = 0 ∧
    (generateImage env dirs prompt op).events.any isSnapshot = false := by
  unfold generateImage
  split
  · exact ⟨rfl, rfl⟩
  · cases h : env.gemini defaultModel prompt with
    | error e => exact ⟨rfl, rfl⟩
    | ok resp =>
      dsimp only
      have hs := saveImage_events_clean env dirs resp op
      constructor
      · rw [sleepCount, List.countP_cons_of_neg _ _ Bool.false_ne_true]
        exact hs.1
      · rw [List.any_cons]
        rw [hs.2]
        rfl

theorem attemptItem_events_clean (env : Env) (cache : List (String × String))
    (dirs : List String) (item : MenuItem) (cname op : String) :
    sleepCount (attemptItem env cache dirs item cname op).events = 0 ∧
    (attemptItem env cache dirs item cname op).events.any isSnapshot = false := by
  unfold attemptItem
  dsimp only
  have hp := prompt_events_clean env cache item cname
  cases hpr : (generatePromptWithGPT env cache item cname).result with
  | error e => exact ⟨hp.1, hp.2⟩
  | ok prompt =>
    dsimp only
    have hi := image_events_clean env dirs prompt op
    cases hir : (generateImage env dirs prompt op).result with
    | error e =>
      dsimp only
      constructor
      · rw [sleepCount, List.countP_append]
        rw [sleepCount] at hp hi
        omega
      · rw [List.any_append, hp.2, hi.2]
        rfl
    | ok u =>
      dsimp only
      constructor
      · rw [sleepCount, List.countP_append]
        rw [sleepCount] at hp hi
        omega
      · rw [List.any_append, hp.2, hi.2]
        rfl

/-! ## Per-item accounting lemmas -/

theorem processItem_sleep (env : Env) (seg fcat cname : String) (st : RunState)
    (item : MenuItem) :
    sleepCount (processItem env seg fcat cname st item).events + st.processed =
      sleepCount st.events + (processItem env seg fcat cname st item).processed := by
  unfold processItem
  dsimp only
  have ha := attemptItem_events_clean env st.cache st.dirs item cname
    (outputPathFor seg fcat item.name)
  simp only [sleepCount] at ha ⊢
  split
  · rfl
  · split
    · dsimp only
      simp only [List.countP_append]
      have h1 := ha.1
      have h2 : List.countP isSleep [Event.sleep 1000] = 1 := rfl
      omega
    · dsimp only
      simp only [List.countP_append]
      have h1 := ha.1
      omega

theorem processItem_snapshot (env : Env) (seg fcat cname : String) (st : RunState)
    (item : MenuItem) :
    (processItem env seg fcat cname st item).events.any isSnapshot =
      st.events.any isSnapshot := by
  unfold processItem
  dsimp only
  have ha := attemptItem_events_clean env st.cache st.dirs item cname
    (outputPathFor seg fcat item.name)
  split
  · rfl
  · split
    · dsimp only
      simp [List.any_append, ha.2, isSnapshot]
    · dsimp only
      simp [List.any_append, ha.2]

theorem processItem_counters (env : Env) (seg fcat cname : String) (st : RunState)
    (item : MenuItem) :
    ((processItem env seg fcat cname st item).processed = st.processed + 1 ∧
      (processItem env seg fcat cname st item).skipped = st.skipped ∧
      (processItem env seg fcat cname st item).failed = st.failed) ∨
    ((processItem env seg fcat cname st item).processed = st.processed ∧
      (processItem env seg fcat cname st item).skipped = st.skipped + 1 ∧
      (processItem env seg fcat cname st item).failed = st.failed) ∨
    ((processItem env seg fcat cname st item).processed = st.processed ∧
      (processItem env seg fcat cname st item).skipped = st.skipped ∧
      (processItem env seg fcat cname st item).failed = st.failed + 1) := by
  unfold processItem
  dsimp only
  split
  · right; left; exact ⟨rfl, rfl, rfl⟩
  · split
    · left; exact ⟨rfl, rfl, rfl⟩
    · right; right; exact ⟨rfl, rfl, rfl⟩

theorem processItem_counterSum (env : Env) (seg fcat cname : String) (st : RunState)
    (item : MenuItem) :
    counterSum (processItem env seg fcat cname st item) = counterSum st + 1 := by
  rcases processItem_counters env seg fcat cname st item with h | h | h <;>
    · unfold counterSum
      rw [h.1, h.2.1, h.2.2]
      omega

/-! ## Fold-level accounting lemmas -/

theorem foldl_items_sleep (env : Env) (seg fcat cname : String) :
    ∀ (items : List MenuItem) (st : RunState),
      sleepCount ((items.foldl (processItem env seg fcat cname) st).events) +
          st.processed =
        sleepCount st.events +
          (items.foldl (processItem env seg fcat cname) st).processed := by
  intro items
  induction items with
  | nil => intro st; rfl
  | cons i rest ih =>
    intro st
    rw [List.foldl_cons]
    have e1 := processItem_sleep env seg fcat cname st i
    have e2 := ih (processItem env seg fcat cname st i)
    omega

theorem processCategory_sleep (env : Env) (seg : String) (st : RunState)
    (cname : String) (cat : Category) :
    sleepCount (processCategory env seg st cname cat).events + st.processed =
      sleepCount st.events + (processCategory env seg st cname cat).processed := by
  unfold processCategory
  exact foldl_items_sleep env seg (formatFileName cname) cname cat.Items st

theorem processDoc_sleep (env : Env) (file : String) :
    ∀ (md : MenuData) (st : RunState),
      sleepCount (processDoc env st file md).events + st.processed =
        sleepCount st.events + (processDoc env st file md).processed := by
  intro md
  induction md with
  | nil => intro st; rfl
  | cons pair rest ih =>
    intro st
    unfold processDoc
    rw [List.foldl_cons]
    have e1 := processCategory_sleep env (segmentOf file) st pair.1 pair.2
    have e2 := ih (processCategory env (segmentOf file) st pair.1 pair.2)
    unfold processDoc at e2
    omega

theorem runDocs_sleep (env : Env) :
    ∀ (files : List String) (st st' : RunState),
      (runDocs env files st = .ok st' ∨ runDocs env files st = .error st') →
      sleepCount st'.events + st.processed =
        sleepCount st.events + st'.processed := by
  intro files
  induction files with
  | nil =>
    intro st st' h
    rcases h with h | h
    · rw [runDocs] at h
      cases h
      rfl
    · rw [runDocs] at h
      cases h
  | cons f rest ih =>
    intro st st' h
    rw [runDocs] at h
    cases hr : env.readDoc f with
    | error e =>
      rw [hr] at h
      rcases h with h | h
      · cases h
      · cases h
        rfl
    | ok md =>
      rw [hr] at h
      have e1 := processDoc_sleep env f md st
      have e2 := ih (processDoc env st f md) st' h
      omega

theorem foldl_items_counterSum (env : Env) (seg fcat cname : String) :
    ∀ (items : List MenuItem) (st : RunState),
      counterSum (items.foldl (processItem env seg fcat cname) st) =
        counterSum st + items.length := by
  intro items
  induction items with
  | nil => intro st; rfl
  | cons i rest ih =>
    intro st
    rw [List.foldl_cons, List.length_cons]
    rw [ih (processItem env seg fcat cname st i)]
    rw [processItem_counterSum env seg fcat cname st i]
    omega

theorem processCategory_counterSum (env : Env) (seg : String) (st : RunState)
    (cname : String) (cat : Category) :
    counterSum (processCategory env seg st cname cat) =
      counterSum st + cat.Items.length := by
  unfold processCategory
  exact foldl_items_counterSum env seg (formatFileName cname) cname cat.Items st

theorem processDoc_counterSum (env : Env) (file : String) :
    ∀ (md : MenuData) (st : RunState),
      counterSum (processDoc env st file md) = counterSum st + itemCountDoc md := by
  intro md
  induction md with
  | nil => intro st; rfl
  | cons pair rest ih =>
    intro st
    unfold processDoc
    rw [List.foldl_cons]
    have e2 := ih (processCategory env (segmentOf file) st pair.1 pair.2)
    unfold processDoc at e2
    rw [e2]
    rw [processCategory_counterSum env (segmentOf file) st pair.1 pair.2]
    unfold itemCountDoc
    rw [List.map_cons, List.sum_cons]
    unfold itemCountDoc at *
    omega

theorem runDocs_counterSum (env : Env) :
    ∀ (files : List String) (st st' : RunState),
      runDocs env files st = .ok st' →
      counterSum st' = counterSum st + (files.map (docItems env)).sum := by
  intro files
  induction files with
  | nil =>
    intro st st' h
    rw [runDocs] at h
    cases h
    simp
  | cons f rest ih =>
    intro st st' h
    rw [runDocs] at h
    cases hr : env.readDoc f with
    | error e =>
      rw [hr] at h
      cases h
    | ok md =>
      rw [hr] at h
      have e1 := processDoc_counterSum env f md st
      have e2 := ih (processDoc env st f md) st' h
      rw [List.map_cons, List.sum_cons]
      have hd : docItems env f = itemCountDoc md := by
        unfold docItems
        rw [hr]
      omega

theorem foldl_items_snapshot (env : Env) (seg fcat cname : String) :
    ∀ (items : List MenuItem) (st : RunState),
      ((items.foldl (processItem env seg fcat cname) st).events.any isSnapshot) =
        st.events.any isSnapshot := by
  intro items
  induction items with
  | nil => intro st; rfl
  | cons i rest ih =>
    intro st
    rw [List.foldl_cons]
    rw [ih (processItem env seg fcat cname st i)]
    exact processItem_snapshot env seg fcat cname st i

theorem processDoc_snapshot (env : Env) (file : String) :
    ∀ (md : MenuData) (st : RunState),
      ((processDoc env st file md).events.any isSnapshot) =
        st.events.any isSnapshot := by
  intro md
  induction md with
  | nil => intro st; rfl
  | cons pair rest ih =>
    intro st
    unfold processDoc
    rw [List.foldl_cons]
    have e2 := ih (processCategory env (segmentOf file) st pair.1 pair.2)
    unfold processDoc at e2
    rw [e2]
    unfold processCategory
    exact foldl_items_snapshot env (segmentOf file) (formatFileName pair.1) pair.1
      pair.2.Items st

theorem runDocs_snapshot (env : Env) :
    ∀ (files : List String) (st st' : RunState),
      (runDocs env files st = .ok st' ∨ runDocs env files st = .error st') →
      (st'.events.any isSnapshot) = st.events.any isSnapshot := by
  intro files
  induction files with
  | nil =>
    intro st st' h
    rcases h with h | h
    · rw [runDocs] at h
      cases h
      rfl
    · rw [runDocs] at h
      cases h
  | cons f rest ih =>
    intro st st' h
    rw [runDocs] at h
    cases hr : env.readDoc f with
    | error e =>
      rw [hr] at h
      rcases h with h | h
      · cases h
      · cases h
        rfl
    | ok md =>
      rw [hr] at h
      have e1 := processDoc_snapshot env f md st
      have e2 := ih (processDoc env st f md) st' h
      rw [e2, e1]

/-! ## Claim C1: failure isolation -/

/-- Claim C1: a prompt- or image-generation failure for one item increments
`failed` by exactly one, leaves the other counters untouched, and never
aborts the batch — the loop simply moves on to the next item; concretely,
when image generation fails for item `Alpha` but succeeds for the later
item `Beta` of the same category, the run ends with `processed = 1`,
`failed = 1` and `Beta`'s output file written. -/
theorem C1_failure_isolation :
    (∀ (env : Env) (segment fcat cname : String) (st : RunState) (item : MenuItem),
      fileExists env st.events (outputPathFor segment fcat item.name) = false →
      (attemptItem env st.cache st.dirs item cname
          (outputPathFor segment fcat item.name)).ok = false →
      (processItem env segment fcat cname st item).failed = st.failed + 1 ∧
      (processItem env segment fcat cname st item).processed = st.processed ∧
      (processItem env segment fcat cname st item).skipped = st.skipped) ∧
    (∀ (env : Env) (segment cname : String) (st : RunState) (item : MenuItem)
        (rest : List MenuItem),
      processCategory env segment st cname { Items := item :: rest } =
        processCategory env segment
          (processItem env segment (formatFileName cname) cname st item) cname
          { Items := rest }) ∧
    ((mainRun envTwoItems).state.processed = 1 ∧
      (mainRun envTwoItems).state.failed = 1 ∧
      (mainRun envTwoItems).state.events.any
        (isWriteTo "output/menu/mains/beta.png") = true) := by
  refine ⟨?_, ?_, ?_⟩
  · intro env segment fcat cname st item hne hfail
    unfold processItem
    dsimp only
    rw [if_neg (by rw [hne]; exact Bool.false_ne_true)]
    rw [if_neg (by rw [hfail]; exact Bool.false_ne_true)]
    exact ⟨rfl, rfl, rfl⟩
  · intro env segment cname st item rest
    rfl
  · exact ⟨by decide, by decide, by decide⟩

theorem C1_failure_isolation_witness :
    (fileExists envTwoItems initState.events
        (outputPathFor "menu" "mains" itemAlpha.name) = false ∧
      (attemptItem envTwoItems initState.cache initState.dirs itemAlpha "Mains"
        (outputPathFor "menu" "mains" itemAlpha.name)).ok = false) ∧
    ((processItem envTwoItems "menu" "mains" "Mains" initState itemAlpha).failed =
        initState.failed + 1 ∧
      (processItem envTwoItems "menu" "mains" "Mains" initState itemAlpha).processed =
        initState.processed ∧
      (processItem envTwoItems "menu" "mains" "Mains" initState itemAlpha).skipped =
        initState.skipped) :=
  ⟨⟨by decide, by decide⟩,
    C1_failure_isolation.1 envTwoItems "menu" "mains" "Mains" initState itemAlpha
      (by decide) (by decide)⟩

/-! ## Claim C4: output path derivation (corrected — the segment is not
sanitised) -/

/-- Claim C4 counterexample: for the input document `My Menu.json` the code
computes `output/my menu/mains/steak-frites.png` — the segment is only
lower-cased, keeping its space — while applying `NameSanitizer` to the
segment as the claim states would give `output/my-menu/...`. -/
theorem C4_counterexample :
    outputPathFor (segmentOf "My Menu.json") (formatFileName "Mains")
        "Steak Frites" ≠
      outputPathSpecC4 "My Menu.json" "Mains" "Steak Frites" ∧
    outputPathFor (segmentOf "My Menu.json") (formatFileName "Mains")
        "Steak Frites" =
      "output/my menu/mains/steak-frites.png" := by
  exact ⟨by decide, by decide⟩

/-- Claim C4 amended: for every document and item, the output path equals
`output/<segment>/<sanitized-category>/<sanitized-item>.png` where
`segment` is the document's base name with the `.json` extension stripped
and lower-cased, and `NameSanitizer` is applied to the category name and
the item name only, not to the segment. -/
theorem C4_output_path_amended (file categoryName itemName : String) :
    outputPathFor (segmentOf file) (formatFileName categoryName) itemName =
      "output" ++ "/" ++ segmentOf file ++ "/" ++ formatFileName categoryName ++
        "/" ++ formatFileName itemName ++ ".png" := by
  unfold outputPathFor pathJoin outputBaseDir
  simp [String.append_assoc]

/-! ## Claim C6: fixed pacing (corrected — no pause after failed items) -/

/-- Claim C6 counterexample: in `envPromptFails` the single item is attempted
(`skipped = 0`) and its prompt stage fails (`failed = 1`), yet the run
contains no pacing delay at all — contradicting the claim that a 1-second
pause follows each attempted item regardless of the prompt step's outcome. -/
theorem C6_pacing_counterexample :
    (mainRun envPromptFails).state.skipped = 0 ∧
    (mainRun envPromptFails).state.failed = 1 ∧
    sleepCount (mainRun envPromptFails).state.events = 0 :=
  ⟨by decide, by decide, by decide⟩

/-- Claim C6 amended: the fixed 1-second pause occurs exactly after the
items on which both stages succeed: per item, the number of pacing delays
added equals the growth of `processed`, and over a whole run the number of
pacing delays equals the final `processed` counter (so skipped and failed
items are never followed by a pause). -/
theorem C6_pacing_amended :
    (∀ (env : Env) (seg fcat cname : String) (st : RunState) (item : MenuItem),
      sleepCount (processItem env seg fcat cname st item).events + st.processed =
        sleepCount st.events + (processItem env seg fcat cname st item).processed) ∧
    (∀ env : Env,
      sleepCount (mainRun env).state.events = (mainRun env).state.processed) := by
  refine ⟨processItem_sleep, ?_⟩
  intro env
  unfold mainRun
  split
  · rfl
  · split
    · rfl
    · split
      · rfl
      · split
        · rfl
        · cases hr : runDocs env (jsonFiles env) initState with
          | error st =>
            have h1 := runDocs_sleep env (jsonFiles env) initState st (Or.inr hr)
            have h2 : sleepCount initState.events = 0 := rfl
            have h3 : initState.processed = 0 := rfl
            simp only [sleepCount] at h1 h2 ⊢
            omega
          | ok st =>
            have h1 := runDocs_sleep env (jsonFiles env) initState st (Or.inl hr)
            have h2 : sleepCount initState.events = 0 := rfl
            have h3 : initState.processed = 0 := rfl
            simp only [sleepCount] at h1 h2 ⊢
            rw [List.countP_append]
            have h4 : List.countP isSleep [Event.snapshot st.cache] = 0 := rfl
            omega

/-! ## Claim C9: a fatal mid-run error loses the in-memory prompt cache -/

/-- Claim C9: when setup succeeds but some document fails to parse, the
process exits with code 1 and the event trace contains no snapshot write —
the prompts accumulated in the in-memory cache during the run are never
persisted. -/
theorem C9_fatal_loses_cache (env : Env)
    (hg : env.googleApiKey = true) (ho : env.openaiApiKey = true)
    (hd : env.inputDirExists = true) (hne : (jsonFiles env).isEmpty = false)
    (st' : RunState)
    (hfail : runDocs env (jsonFiles env) initState = .error st') :
    mainRun env = { exitCode := 1, state := st' } ∧
    (st'.events.any isSnapshot) = false := by
  constructor
  · unfold mainRun
    rw [if_neg (by rw [hg]; decide)]
    rw [if_neg (by rw [ho]; decide)]
    rw [if_neg (by rw [hd]; decide)]
    rw [if_neg (by rw [hne]; exact Bool.false_ne_true)]
    rw [hfail]
  · have h := runDocs_snapshot env (jsonFiles env) initState st' (Or.inr hfail)
    rw [h]
    rfl

theorem C9_fatal_loses_cache_witness :
    (envParseFail.googleApiKey = true ∧ envParseFail.openaiApiKey = true ∧
      envParseFail.inputDirExists = true ∧
      (jsonFiles envParseFail).isEmpty = false ∧
      runDocs envParseFail (jsonFiles envParseFail) initState = .error stAfterDocA ∧
      stAfterDocA.cache = [("Mains::Beta", "PBeta")]) ∧
    (mainRun envParseFail = { exitCode := 1, state := stAfterDocA } ∧
      (stAfterDocA.events.any isSnapshot) = false) :=
  ⟨⟨by decide, by decide, by decide, by decide, by decide, by decide⟩,
    C9_fatal_loses_cache envParseFail rfl rfl rfl (by decide) stAfterDocA (by decide)⟩

/-! ## Claim C10: counter accounting -/

/-- Claim C10: every enumerated item increments exactly one of the three
counters by one (none is ever decremented or reset), and at the end of a
successful run `processed + skipped + failed` equals the number of items
enumerated across all input documents. -/
theorem C10_counter_accounting :
    (∀ (env : Env) (seg fcat cname : String) (st : RunState) (item : MenuItem),
      ((processItem env seg fcat cname st item).processed = st.processed + 1 ∧
        (processItem env seg fcat cname st item).skipped = st.skipped ∧
        (processItem env seg fcat cname st item).failed = st.failed) ∨
      ((processItem env seg fcat cname st item).processed = st.processed ∧
        (processItem env seg fcat cname st item).skipped = st.skipped + 1 ∧
        (processItem env seg fcat cname st item).failed = st.failed) ∨
      ((processItem env seg fcat cname st item).processed = st.processed ∧
        (processItem env seg fcat cname st item).skipped = st.skipped ∧
        (processItem env seg fcat cname st item).failed = st.failed + 1)) ∧
    (∀ (env : Env) (st' : RunState),
      mainRun env = { exitCode := 0, state := st' } →
      st'.processed + st'.skipped + st'.failed = totalItems env) := by
  refine ⟨processItem_counters, ?_⟩
  intro env st' h
  unfold mainRun at h
  split at h
  · simp at h
  · split at h
    · simp at h
    · split at h
      · simp at h
      · split at h
        · simp at h
        · cases hr : runDocs env (jsonFiles env) initState with
          | error st =>
            rw [hr] at h
            simp at h
          | ok st =>
            rw [hr] at h
            simp only [RunResult.mk.injEq] at h
            have hst := h.2
            have hc := runDocs_counterSum env (jsonFiles env) initState st hr
            unfold counterSum at hc
            have h0p : initState.processed = 0 := rfl
            have h0s : initState.skipped = 0 := rfl
            have h0f : initState.failed = 0 := rfl
            rw [← hst]
            dsimp only
            unfold totalItems
            omega

theorem C10_counter_accounting_witness :
    mainRun envTwoItems = { exitCode := 0, state := (mainRun envTwoItems).state } ∧
    (mainRun envTwoItems).state.processed + (mainRun envTwoItems).state.skipped +
      (mainRun envTwoItems).state.failed = totalItems envTwoItems :=
  ⟨by decide,
    C10_counter_accounting.2 envTwoItems (mainRun envTwoItems).state (by decide)⟩

end GenImages
